import Mathlib

/-!
Verification of the gamatrix reconciliation engine and data store.

The definitions below are a shallow embedding of the Python source:
 - `src/gamatrix/helpers/data_store_helper.py` (data model, merge,
   user removal, save/load, backup rotation),
 - `src/gamatrix/__main__.py` (`get_common_games_from_data_store`),
 - `src/gamatrix/helpers/database.py` (`get_igdb_release_key`),
 - `gamatrix_gog.py` (`merge_duplicate_titles`).

Python dicts are modelled as insertion-ordered association lists;
Python `int` is `Int`, `str` is `String`, optional values are `Option`.
-/

/-! ## Data model (data_store_helper.py, dataclasses) -/

/-- Mirrors dataclass `GameData`. -/
structure GameData where
  release_key : String
  title : String
  slug : String
  platforms : List String
  owners : List Int
  installed : List Int
  igdb_key : String
  multiplayer : Bool := false
  max_players : Option Int := none
  comment : Option String := none
  url : Option String := none
deriving Repr, DecidableEq

/-- Mirrors dataclass `UserData`. -/
structure UserData where
  user_id : Int
  username : String
  db_filename : String
  db_mtime : String
  total_games : Int
  installed_games : Int
deriving Repr, DecidableEq

/-- Mirrors dataclass `DataStore`. -/
structure DataStore where
  users : List (Int × UserData)
  games : List (String × GameData)
  last_updated : String
  version : String := "1.0"
deriving Repr, DecidableEq

/-- The store built by `DataStore(users={}, games={}, last_updated="")`. -/
def emptyStore : DataStore :=
  { users := [], games := [], last_updated := "" }

/-! ## Association-list operations (model of Python dict) -/

section AssocList

variable {κ ν : Type} [DecidableEq κ]

/-- `d[k]` lookup: value of the first (and in a dict, only) entry with key `k`. -/
def lookupKey (k : κ) : List (κ × ν) → Option ν
  | [] => none
  | p :: rest => if p.1 = k then some p.2 else lookupKey k rest

/-- `k in d`. -/
def containsKey (k : κ) (l : List (κ × ν)) : Bool :=
  l.any (fun p => p.1 = k)

/-- In-place update of the value stored at key `k` (`d[k] = f(d[k])`). -/
def modifyKey (k : κ) (f : ν → ν) (l : List (κ × ν)) : List (κ × ν) :=
  l.map (fun p => if p.1 = k then (p.1, f p.2) else p)

/-- `del d[k]`. -/
def eraseKey (k : κ) (l : List (κ × ν)) : List (κ × ν) :=
  l.filter (fun p => !(p.1 = k : Bool))

theorem lookupKey_append (k : κ) (a b : List (κ × ν)) :
    lookupKey k (a ++ b) =
      match lookupKey k a with
      | some v => some v
      | none => lookupKey k b := by
  induction a with
  | nil => simp [lookupKey]
  | cons p rest ih =>
    by_cases h : p.1 = k <;> simp [lookupKey, h, ih]

theorem containsKey_append (k : κ) (a b : List (κ × ν)) :
    containsKey k (a ++ b) = (containsKey k a || containsKey k b) := by
  simp [containsKey, List.any_append]

theorem lookupKey_eq_none_iff (k : κ) (l : List (κ × ν)) :
    lookupKey k l = none ↔ ∀ p ∈ l, p.1 ≠ k := by
  induction l with
  | nil => simp [lookupKey]
  | cons p rest ih =>
    by_cases h : p.1 = k <;> simp [lookupKey, h, ih]

theorem containsKey_iff_exists (k : κ) (l : List (κ × ν)) :
    containsKey k l = true ↔ ∃ p ∈ l, p.1 = k := by
  simp [containsKey]

theorem containsKey_eq_false_iff (k : κ) (l : List (κ × ν)) :
    containsKey k l = false ↔ ∀ p ∈ l, p.1 ≠ k := by
  simp [containsKey]

theorem lookupKey_isSome_eq_containsKey (k : κ) (l : List (κ × ν)) :
    (lookupKey k l).isSome = containsKey k l := by
  induction l with
  | nil => simp [lookupKey, containsKey]
  | cons p rest ih =>
    by_cases h : p.1 = k
    · simp [lookupKey, containsKey, h]
    · simp [lookupKey, containsKey, h] at ih ⊢
      simp [ih]

theorem lookupKey_mem (k : κ) (l : List (κ × ν)) {v : ν}
    (h : lookupKey k l = some v) : (k, v) ∈ l := by
  induction l with
  | nil => simp [lookupKey] at h
  | cons p rest ih =>
    by_cases hp : p.1 = k
    · simp [lookupKey, hp] at h
      cases p
      simp_all
    · simp [lookupKey, hp] at h
      exact List.mem_cons_of_mem _ (ih h)

theorem lookupKey_of_mem_nodup {l : List (κ × ν)} (hnd : (l.map Prod.fst).Nodup)
    {p : κ × ν} (hp : p ∈ l) : lookupKey p.1 l = some p.2 := by
  induction l with
  | nil => simp at hp
  | cons q rest ih =>
    simp only [List.map_cons, List.nodup_cons] at hnd
    rcases List.mem_cons.mp hp with h | h
    · subst h
      simp [lookupKey]
    · have hq : q.1 ≠ p.1 := by
        intro he
        exact hnd.1 (he ▸ List.mem_map_of_mem Prod.fst h)
      simp [lookupKey, hq, ih hnd.2 h]

/-- A key-preserving map transforms the result of `lookupKey` pointwise. -/
theorem lookupKey_map_keyfun (k : κ) (f : κ → ν → ν) (l : List (κ × ν)) :
    lookupKey k (l.map (fun p => (p.1, f p.1 p.2))) =
      (lookupKey k l).map (f k) := by
  induction l with
  | nil => simp [lookupKey]
  | cons p rest ih =>
    by_cases h : p.1 = k
    · subst h
      simp [lookupKey, ih]
    · simp [lookupKey, h, ih]

theorem lookupKey_filter (k : κ) (pr : κ × ν → Bool) (l : List (κ × ν))
    (h : ∀ p ∈ l, p.1 = k → pr p = true) :
    lookupKey k (l.filter pr) = lookupKey k l := by
  induction l with
  | nil => simp
  | cons p rest ih =>
    by_cases hk : p.1 = k
    · have : pr p = true := h p (by simp) hk
      simp [List.filter_cons, this, lookupKey, hk]
    · rcases hpr : pr p with _ | _ <;>
        simp [List.filter_cons, hpr, lookupKey, hk,
          ih (fun q hq => h q (List.mem_cons_of_mem _ hq))]

theorem containsKey_map_keyfun (k : κ) (f : κ → ν → ν) (l : List (κ × ν)) :
    containsKey k (l.map (fun p => (p.1, f p.1 p.2))) = containsKey k l := by
  induction l with
  | nil => rfl
  | cons p rest ih => simp [containsKey] at ih ⊢; rw [ih]

end AssocList

/-! ## Reconciliation merge (`DataStoreHelper.update_user_data`) -/

/-- Lines 221-222: `if user_id not in existing_game.owners: owners.append(user_id)`. -/
def addIfAbsent (x : Int) (l : List Int) : List Int :=
  if x ∈ l then l else l ++ [x]

/-- Lines 224-234: append `user_id` to `installed` when the incoming record marks
the user installed and the existing one does not; remove it in the reverse case. -/
def syncInstalled (u : Int) (incoming existing : List Int) : List Int :=
  if u ∈ incoming ∧ u ∉ existing then existing ++ [u]
  else if u ∉ incoming ∧ u ∈ existing then existing.erase u
  else existing

/-- Lines 236-239: append each incoming platform not already present. -/
def platUnion (a b : List String) : List String :=
  b.foldl (fun acc p => if p ∈ acc then acc else acc ++ [p]) a

/-- Lines 242-243: `if not existing.multiplayer and incoming.multiplayer: ...`. -/
def orMultiplayer (e g : Bool) : Bool :=
  if !e && g then g else e

/-- Lines 245-255: adopt the incoming `max_players` when the existing one is
unset or smaller. -/
def mergeMaxPlayers (e g : Option Int) : Option Int :=
  match e, g with
  | none, some m => some m
  | some a, some m => if m > a then some m else some a
  | a, none => a

/-- The body of the `if release_key in data_store.games` branch (lines 216-255):
merge one incoming record into the existing catalog record. -/
def mergeGame (user_id : Int) (existing_game game_data : GameData) : GameData :=
  { existing_game with
      owners := addIfAbsent user_id existing_game.owners,
      installed := syncInstalled user_id game_data.installed existing_game.installed,
      platforms := platUnion existing_game.platforms game_data.platforms,
      multiplayer := orMultiplayer existing_game.multiplayer game_data.multiplayer,
      max_players := mergeMaxPlayers existing_game.max_players game_data.max_players }

/-- The per-item step of the loop over `games.items()` (lines 215-259). -/
def updateOneGame (user_id : Int) (cat : List (String × GameData))
    (p : String × GameData) : List (String × GameData) :=
  if containsKey p.1 cat then
    modifyKey p.1 (fun e => mergeGame user_id e p.2) cat
  else
    cat ++ [p]

/-- The loop over the incoming batch (lines 215-259). -/
def updateGames (user_id : Int) (games : List (String × GameData))
    (cat : List (String × GameData)) : List (String × GameData) :=
  games.foldl (updateOneGame user_id) cat

/-- `data_store.users[user_id] = user_data` (line 212): dict assignment keeps the
position of an existing key and appends a missing one. -/
def upsertUser (u : Int) (ud : UserData) (users : List (Int × UserData)) :
    List (Int × UserData) :=
  if containsKey u users then modifyKey u (fun _ => ud) users
  else users ++ [(u, ud)]

/-- `DataStoreHelper.update_user_data` (lines 189-261), for a non-`None` store;
the `None` case builds `emptyStore` first. -/
def update_user_data (data_store : DataStore) (user_id : Int)
    (user_data : UserData) (games : List (String × GameData)) : DataStore :=
  { data_store with
      users := upsertUser user_id user_data data_store.users,
      games := updateGames user_id games data_store.games }

/-- `DataStoreHelper.remove_user_data` (lines 263-298), for a non-`None` store. -/
def remove_user_data (data_store : DataStore) (user_id : Int) : DataStore :=
  let games1 := data_store.games.map (fun p =>
    (p.1, { p.2 with
        owners := if user_id ∈ p.2.owners then p.2.owners.erase user_id else p.2.owners,
        installed := if user_id ∈ p.2.installed then p.2.installed.erase user_id
                     else p.2.installed }))
  { data_store with
      users := eraseKey user_id data_store.users,
      games := games1.filter (fun p => !p.2.owners.isEmpty) }

/-! ## Batches produced by ingestion (ingestion_helper.py lines 122-134) -/

/-- The shape of every incoming batch `extract_user_data` hands to
`update_user_data`: a dict (no duplicate keys) in which each record has
`owners=[user_id]` and `installed=[user_id] if is_installed else []`. -/
def BatchWF (u : Int) (gs : List (String × GameData)) : Prop :=
  (gs.map Prod.fst).Nodup ∧
  ∀ p ∈ gs, p.2.owners = [u] ∧ (p.2.installed = [] ∨ p.2.installed = [u])

/-- Catalog states reachable from the empty store by ingestion merges and
user removals. -/
inductive Reachable : DataStore → Prop where
  | empty : Reachable emptyStore
  | update {s : DataStore} {u : Int} {ud : UserData} {gs : List (String × GameData)} :
      Reachable s → BatchWF u gs → Reachable (update_user_data s u ud gs)
  | remove {s : DataStore} {u : Int} :
      Reachable s → Reachable (remove_user_data s u)

/-! ## Characterization of the batch merge -/

/-- How one user's batch rewrites a single catalog entry. -/
def mergeAt (u : Int) (gs : List (String × GameData)) (k : String)
    (e : GameData) : GameData :=
  match lookupKey k gs with
  | some g => mergeGame u e g
  | none => e

theorem modifyKey_eq_map_keyfun {κ ν : Type} [DecidableEq κ] (k : κ) (f : ν → ν)
    (l : List (κ × ν)) :
    modifyKey k f l = l.map (fun p => (p.1, if p.1 = k then f p.2 else p.2)) := by
  apply List.map_congr_left
  intro p _
  by_cases h : p.1 = k <;> simp [h]

/-- The loop over `games.items()` rewrites every existing entry with `mergeAt`
and appends the records whose key is new, in batch order. -/
theorem updateGames_eq (u : Int) (gs cat : List (String × GameData))
    (hnd : (gs.map Prod.fst).Nodup) :
    updateGames u gs cat =
      cat.map (fun p => (p.1, mergeAt u gs p.1 p.2)) ++
        gs.filter (fun p => !containsKey p.1 cat) := by
  induction gs generalizing cat with
  | nil =>
    simp [updateGames, mergeAt, lookupKey]
  | cons q rest ih =>
    simp only [List.map_cons, List.nodup_cons] at hnd
    have hq_rest : lookupKey q.1 rest = none :=
      (lookupKey_eq_none_iff _ _).mpr
        (fun p hp he => hnd.1 (he ▸ List.mem_map_of_mem Prod.fst hp))
    have step : updateGames u (q :: rest) cat =
        updateGames u rest (updateOneGame u cat q) := rfl
    rw [step]
    by_cases hc : containsKey q.1 cat = true
    · have hone : updateOneGame u cat q =
          cat.map (fun p => (p.1, if p.1 = q.1 then mergeGame u p.2 q.2 else p.2)) := by
        simp [updateOneGame, hc, modifyKey_eq_map_keyfun]
      rw [hone, ih _ hnd.2, List.map_map]
      have hmap : ∀ p ∈ cat,
          ((fun p => (p.1, mergeAt u rest p.1 p.2)) ∘
            (fun p => (p.1, if p.1 = q.1 then mergeGame u p.2 q.2 else p.2))) p =
          (p.1, mergeAt u (q :: rest) p.1 p.2) := by
        intro p _
        by_cases h : p.1 = q.1
        · simp [Function.comp, h, mergeAt, lookupKey, hq_rest]
        · simp [Function.comp, h, mergeAt, lookupKey, Ne.symm h]
      rw [List.map_congr_left hmap]
      have hfil : rest.filter
            (fun p => !containsKey p.1
              (cat.map (fun p => (p.1, if p.1 = q.1 then mergeGame u p.2 q.2 else p.2)))) =
          rest.filter (fun p => !containsKey p.1 cat) := by
        apply List.filter_congr
        intro p _
        rw [containsKey_map_keyfun p.1 (fun k v => if k = q.1 then mergeGame u v q.2 else v)]
      rw [hfil]
      have : List.filter (fun p => !containsKey p.1 cat) (q :: rest) =
          rest.filter (fun p => !containsKey p.1 cat) := by
        simp [List.filter_cons, hc]
      rw [this]
    · have hcf : containsKey q.1 cat = false := by
        revert hc
        cases containsKey q.1 cat <;> simp
      have hone : updateOneGame u cat q = cat ++ [q] := by
        simp [updateOneGame, hcf]
      rw [hone, ih _ hnd.2, List.map_append]
      have hckey : ∀ p ∈ cat, p.1 ≠ q.1 :=
        (containsKey_eq_false_iff _ _).mp hcf
      have hmap : ∀ p ∈ cat,
          (p.1, mergeAt u rest p.1 p.2) = (p.1, mergeAt u (q :: rest) p.1 p.2) := by
        intro p hp
        simp [mergeAt, lookupKey, Ne.symm (hckey p hp)]
      rw [List.map_congr_left hmap]
      have hsingle : List.map (fun p => (p.1, mergeAt u rest p.1 p.2)) [q] = [q] := by
        simp [mergeAt, hq_rest]
      rw [hsingle]
      have hfil : rest.filter (fun p => !containsKey p.1 (cat ++ [q])) =
          rest.filter (fun p => !containsKey p.1 cat) := by
        apply List.filter_congr
        intro p hp
        have hpq : p.1 ≠ q.1 :=
          fun he => hnd.1 (he ▸ List.mem_map_of_mem Prod.fst hp)
        have hcq : containsKey p.1 (cat ++ [q]) = containsKey p.1 cat := by
          rw [containsKey_append]
          have h1 : containsKey p.1 [q] = false := by
            simp [containsKey]
            exact fun he => hpq he.symm
          rw [h1, Bool.or_false]
        rw [hcq]
      rw [hfil]
      have hkeep : List.filter (fun p => !containsKey p.1 cat) (q :: rest) =
          q :: rest.filter (fun p => !containsKey p.1 cat) := by
        simp [List.filter_cons, hcf]
      rw [hkeep, List.append_assoc]
      rfl

/-- Per-key view of `update_user_data` on the catalog. -/
theorem lookupKey_updateGames (u : Int) (gs cat : List (String × GameData))
    (hnd : (gs.map Prod.fst).Nodup) (x : String) :
    lookupKey x (updateGames u gs cat) =
      match lookupKey x cat, lookupKey x gs with
      | some e, some g => some (mergeGame u e g)
      | some e, none => some e
      | none, r => r := by
  rw [updateGames_eq u gs cat hnd, lookupKey_append]
  have hmap := lookupKey_map_keyfun x (fun k v => mergeAt u gs k v) cat
  rw [hmap]
  rcases hcat : lookupKey x cat with _ | e
  · have hcf : containsKey x cat = false := by
      have := lookupKey_isSome_eq_containsKey x cat
      rw [hcat] at this
      simpa using this.symm
    rw [lookupKey_filter x _ gs (fun p _ hpk => by simp [hpk, hcf])]
    rcases hgs : lookupKey x gs with _ | g <;> simp
  · rcases hgs : lookupKey x gs with _ | g <;> simp [mergeAt, hgs]

/-! ## Field-level lemmas about the merge -/

theorem mem_addIfAbsent (x u : Int) (l : List Int) :
    x ∈ addIfAbsent u l ↔ x ∈ l ∨ x = u := by
  by_cases h : u ∈ l
  · simp only [addIfAbsent, if_pos h]
    constructor
    · exact Or.inl
    · rintro (hx | rfl)
      · exact hx
      · exact h
  · simp [addIfAbsent, if_neg h]

theorem addIfAbsent_ne_nil (u : Int) (l : List Int) : addIfAbsent u l ≠ [] := by
  by_cases h : u ∈ l
  · simp only [addIfAbsent, if_pos h]
    intro he
    rw [he] at h
    simp at h
  · simp [addIfAbsent, if_neg h]

theorem addIfAbsent_nodup (u : Int) {l : List Int} (h : l.Nodup) :
    (addIfAbsent u l).Nodup := by
  by_cases hm : u ∈ l
  · simpa [addIfAbsent, if_pos hm] using h
  · simp only [addIfAbsent, if_neg hm]
    exact List.Nodup.append h (List.nodup_singleton u)
      (fun a ha hb => hm (List.mem_singleton.mp hb ▸ ha))

theorem mem_platUnion (x : String) (a b : List String) :
    x ∈ platUnion a b ↔ x ∈ a ∨ x ∈ b := by
  induction b generalizing a with
  | nil => simp [platUnion]
  | cons p rest ih =>
    show x ∈ platUnion (if p ∈ a then a else a ++ [p]) rest ↔ _
    by_cases h : p ∈ a
    · rw [if_pos h, ih]
      constructor
      · rintro (hx | hx)
        · exact Or.inl hx
        · exact Or.inr (List.mem_cons_of_mem _ hx)
      · rintro (hx | hx)
        · exact Or.inl hx
        · rcases List.mem_cons.mp hx with rfl | hx
          · exact Or.inl h
          · exact Or.inr hx
    · rw [if_neg h, ih]
      simp only [List.mem_append, List.mem_singleton, List.mem_cons]
      tauto

theorem platUnion_self_absorb (a b : List String) (h : ∀ x ∈ b, x ∈ a) :
    platUnion a b = a := by
  induction b generalizing a with
  | nil => rfl
  | cons p rest ih =>
    show platUnion (if p ∈ a then a else a ++ [p]) rest = a
    rw [if_pos (h p (by simp))]
    exact ih a (fun x hx => h x (List.mem_cons_of_mem _ hx))

theorem orMultiplayer_eq_or (e g : Bool) : orMultiplayer e g = (e || g) := by
  cases e <;> cases g <;> rfl

/-! ## The catalog invariant (claim C1) -/

/-- The record-level invariant maintained by the store operations. -/
def GoodGame (g : GameData) : Prop :=
  (∀ x ∈ g.installed, x ∈ g.owners) ∧ g.owners ≠ [] ∧
    g.owners.Nodup ∧ g.installed.Nodup

/-- Every catalog record is well formed. -/
def CatalogInv (s : DataStore) : Prop :=
  ∀ p ∈ s.games, GoodGame p.2

theorem goodGame_mergeGame (u : Int) (e g : GameData) (he : GoodGame e) :
    GoodGame (mergeGame u e g) := by
  obtain ⟨hsub, hne, hnodupO, hnodupI⟩ := he
  refine ⟨?_, ?_, ?_, ?_⟩
  · intro x hx
    show x ∈ addIfAbsent u e.owners
    rw [mem_addIfAbsent]
    revert hx
    show x ∈ syncInstalled u g.installed e.installed → _
    unfold syncInstalled
    split
    · intro hx
      rcases List.mem_append.mp hx with hx | hx
      · exact Or.inl (hsub x hx)
      · exact Or.inr (List.mem_singleton.mp hx)
    · split
      · intro hx
        exact Or.inl (hsub x (List.mem_of_mem_erase hx))
      · intro hx
        exact Or.inl (hsub x hx)
  · exact addIfAbsent_ne_nil u e.owners
  · exact addIfAbsent_nodup u hnodupO
  · show (syncInstalled u g.installed e.installed).Nodup
    unfold syncInstalled
    split
    · rename_i h
      simp [List.nodup_append, hnodupI, h.2]
    · split
      · exact hnodupI.erase u
      · exact hnodupI

theorem goodGame_of_batch {u : Int} {gs : List (String × GameData)}
    (hwf : BatchWF u gs) {p : String × GameData} (hp : p ∈ gs) : GoodGame p.2 := by
  obtain ⟨ho, hi⟩ := hwf.2 p hp
  refine ⟨?_, ?_, ?_, ?_⟩
  · intro x hx
    rcases hi with hi | hi <;> rw [hi] at hx
    · simp at hx
    · rw [ho]
      exact hx
  · rw [ho]
    simp
  · rw [ho]
    simp
  · rcases hi with hi | hi <;> simp [hi]

theorem catalogInv_update (s : DataStore) (u : Int) (ud : UserData)
    (gs : List (String × GameData)) (hinv : CatalogInv s) (hwf : BatchWF u gs) :
    CatalogInv (update_user_data s u ud gs) := by
  intro p hp
  have : p ∈ s.games.map (fun p => (p.1, mergeAt u gs p.1 p.2)) ++
      gs.filter (fun p => !containsKey p.1 s.games) := by
    rw [← updateGames_eq u gs s.games hwf.1]
    exact hp
  rcases List.mem_append.mp this with hm | hm
  · obtain ⟨q, hq, rfl⟩ := List.mem_map.mp hm
    show GoodGame (mergeAt u gs q.1 q.2)
    unfold mergeAt
    split
    · exact goodGame_mergeGame u q.2 _ (hinv q hq)
    · exact hinv q hq
  · exact goodGame_of_batch hwf (List.mem_of_mem_filter hm)

theorem catalogInv_remove (s : DataStore) (u : Int) (hinv : CatalogInv s) :
    CatalogInv (remove_user_data s u) := by
  intro p hp
  have hp2 := List.mem_of_mem_filter hp
  have hkeep := List.of_mem_filter hp
  obtain ⟨q, hq, rfl⟩ := List.mem_map.mp hp2
  obtain ⟨hsub, hne, hnodupO, hnodupI⟩ := hinv q hq
  refine ⟨?_, ?_, ?_, ?_⟩
  · intro x hx
    simp only at hx ⊢
    by_cases hio : u ∈ q.2.installed
    · rw [if_pos hio] at hx
      have hxq : x ∈ q.2.installed := List.mem_of_mem_erase hx
      have hxu : x ≠ u := ((hnodupI.mem_erase_iff).mp hx).1
      by_cases hoo : u ∈ q.2.owners
      · rw [if_pos hoo]
        exact (List.mem_erase_of_ne hxu).mpr (hsub x hxq)
      · rw [if_neg hoo]
        exact hsub x hxq
    · rw [if_neg hio] at hx
      have hxu : x ≠ u := fun he => hio (he ▸ hx)
      by_cases hoo : u ∈ q.2.owners
      · rw [if_pos hoo]
        exact (List.mem_erase_of_ne hxu).mpr (hsub x hx)
      · rw [if_neg hoo]
        exact hsub x hx
  · simp only [Bool.not_eq_true', List.isEmpty_eq_false] at hkeep
    exact hkeep
  · by_cases hoo : u ∈ q.2.owners <;> simp only [hoo, if_pos, if_neg, ite_true, ite_false]
    · exact hnodupO.erase u
    · exact hnodupO
  · by_cases hio : u ∈ q.2.installed <;> simp only [hio, ite_true, ite_false]
    · exact hnodupI.erase u
    · exact hnodupI

theorem catalogInv_reachable {s : DataStore} (h : Reachable s) : CatalogInv s := by
  induction h with
  | empty => intro p hp; simp [emptyStore] at hp
  | update _ hwf ih => exact catalogInv_update _ _ _ _ ih hwf
  | remove _ ih => exact catalogInv_remove _ _ ih

/-! ## Claim C1 -/

theorem remove_user_data_spec (s : DataStore) (u : Int) (hinv : CatalogInv s) :
    ∀ p ∈ (remove_user_data s u).games,
      u ∉ p.2.owners ∧ u ∉ p.2.installed ∧ p.2.owners ≠ [] := by
  intro p hp
  have hp2 := List.mem_of_mem_filter hp
  have hkeep := List.of_mem_filter hp
  obtain ⟨q, hq, rfl⟩ := List.mem_map.mp hp2
  obtain ⟨_, _, hnodupO, hnodupI⟩ := hinv q hq
  refine ⟨?_, ?_, ?_⟩
  · show u ∉ (if u ∈ q.2.owners then q.2.owners.erase u else q.2.owners)
    by_cases hoo : u ∈ q.2.owners
    · rw [if_pos hoo]
      exact hnodupO.not_mem_erase
    · rw [if_neg hoo]
      exact hoo
  · show u ∉ (if u ∈ q.2.installed then q.2.installed.erase u else q.2.installed)
    by_cases hio : u ∈ q.2.installed
    · rw [if_pos hio]
      exact hnodupI.not_mem_erase
    · rw [if_neg hio]
      exact hio
  · simp only [Bool.not_eq_true', List.isEmpty_eq_false] at hkeep
    exact hkeep

/-- C1: in every catalog state reachable from the empty store by merges of
ingestion-shaped batches and user removals, every game record satisfies
`installed ⊆ owners` and `owners ≠ ∅`; moreover `remove_user_data` removes the
user from `owners` and `installed` of every game and drops every game whose
`owners` set becomes empty. -/
theorem c1_catalog_invariant :
    (∀ s : DataStore, Reachable s →
      ∀ p ∈ s.games, (∀ x ∈ p.2.installed, x ∈ p.2.owners) ∧ p.2.owners ≠ []) ∧
    (∀ (s : DataStore) (u : Int), Reachable s →
      ∀ p ∈ (remove_user_data s u).games,
        u ∉ p.2.owners ∧ u ∉ p.2.installed ∧ p.2.owners ≠ []) := by
  constructor
  · intro s h p hp
    have hg := catalogInv_reachable h p hp
    exact ⟨hg.1, hg.2.1⟩
  · intro s u h
    exact remove_user_data_spec s u (catalogInv_reachable h)

/-- A sample user record for concrete instantiations. -/
def sampleUser : UserData :=
  { user_id := 7, username := "u7", db_filename := "galaxy.db",
    db_mtime := "2024-01-01", total_games := 1, installed_games := 1 }

/-- A sample ingested record for user 7 (installed). -/
def gameSteam1 : GameData :=
  { release_key := "steam_1", title := "Game A", slug := "gamea",
    platforms := ["steam"], owners := [7], installed := [7],
    igdb_key := "steam_1" }

theorem c1_catalog_invariant_witness :
    Reachable (update_user_data emptyStore 7 sampleUser [("steam_1", gameSteam1)]) ∧
    (∀ p ∈ (update_user_data emptyStore 7 sampleUser [("steam_1", gameSteam1)]).games,
      (∀ x ∈ p.2.installed, x ∈ p.2.owners) ∧ p.2.owners ≠ []) ∧
    (∀ p ∈ (remove_user_data
        (update_user_data emptyStore 7 sampleUser [("steam_1", gameSteam1)]) 7).games,
      7 ∉ p.2.owners ∧ 7 ∉ p.2.installed ∧ p.2.owners ≠ []) := by
  have hr : Reachable (update_user_data emptyStore 7 sampleUser [("steam_1", gameSteam1)]) :=
    Reachable.update Reachable.empty (by constructor <;> decide)
  exact ⟨hr, c1_catalog_invariant.1 _ hr, c1_catalog_invariant.2 _ 7 hr⟩

/-! ## Claim C10 -/

/-- C10: merging an incoming record whose release key already exists leaves
`title`, `slug`, `igdb_key`, `comment`, `url` (and `release_key`) unchanged;
the merge only touches `owners`, `installed`, `platforms`, `multiplayer`,
`max_players`. -/
theorem c10_merge_frame (s : DataStore) (u : Int) (ud : UserData)
    (gs : List (String × GameData)) (k : String) (e g : GameData)
    (hnd : (gs.map Prod.fst).Nodup)
    (hs : lookupKey k s.games = some e) (hg : lookupKey k gs = some g) :
    lookupKey k (update_user_data s u ud gs).games = some (mergeGame u e g) ∧
    (mergeGame u e g).title = e.title ∧
    (mergeGame u e g).slug = e.slug ∧
    (mergeGame u e g).igdb_key = e.igdb_key ∧
    (mergeGame u e g).comment = e.comment ∧
    (mergeGame u e g).url = e.url ∧
    (mergeGame u e g).release_key = e.release_key := by
  refine ⟨?_, rfl, rfl, rfl, rfl, rfl, rfl⟩
  show lookupKey k (updateGames u gs s.games) = some (mergeGame u e g)
  rw [lookupKey_updateGames u gs s.games hnd k, hs, hg]

theorem c10_merge_frame_witness :
    lookupKey "steam_1"
      (update_user_data
        { users := [(7, sampleUser)], games := [("steam_1", gameSteam1)],
          last_updated := "" }
        9 sampleUser [("steam_1", gameSteam1)]).games =
      some (mergeGame 9 gameSteam1 gameSteam1) ∧
    (mergeGame 9 gameSteam1 gameSteam1).title = gameSteam1.title ∧
    (mergeGame 9 gameSteam1 gameSteam1).slug = gameSteam1.slug ∧
    (mergeGame 9 gameSteam1 gameSteam1).igdb_key = gameSteam1.igdb_key ∧
    (mergeGame 9 gameSteam1 gameSteam1).comment = gameSteam1.comment ∧
    (mergeGame 9 gameSteam1 gameSteam1).url = gameSteam1.url ∧
    (mergeGame 9 gameSteam1 gameSteam1).release_key = gameSteam1.release_key :=
  c10_merge_frame
    { users := [(7, sampleUser)], games := [("steam_1", gameSteam1)],
      last_updated := "" }
    9 sampleUser [("steam_1", gameSteam1)] "steam_1" gameSteam1 gameSteam1
    (by decide) (by decide) (by decide)

/-! ## Claim C3 -/

/-- A catalog record for user 7 with the game installed. -/
def c3Existing : GameData :=
  { release_key := "steam_1", title := "Game A", slug := "gamea",
    platforms := ["steam"], owners := [7], installed := [7],
    igdb_key := "steam_1" }

/-- A later ingestion record for user 7 in which the game is not installed. -/
def c3Incoming : GameData :=
  { release_key := "steam_1", title := "Game A", slug := "gamea",
    platforms := ["steam"], owners := [7], installed := [],
    igdb_key := "steam_1" }

/-- A store holding `c3Existing`. -/
def c3Store : DataStore :=
  { users := [(7, sampleUser)], games := [("steam_1", c3Existing)],
    last_updated := "" }

/-- C3 is false on the code: merging a batch for user 7 whose record does not
mark the game installed removes 7 from `installed` (here `[7]` becomes `[]`),
so `installed` does not stay unchanged. -/
theorem c3_counterexample :
    (lookupKey "steam_1" c3Store.games).map GameData.installed = some [7] ∧
    (lookupKey "steam_1"
        (update_user_data c3Store 7 sampleUser [("steam_1", c3Incoming)]).games).map
      GameData.installed = some [] ∧
    some ([] : List Int) ≠ some [7] := by
  refine ⟨by decide, by decide, by decide⟩

/-- C3 amended: `update_user_data` synchronizes the merging user's installed
flag with the incoming record: when the incoming record for the game does not
mark user `u` installed, `u` is removed from the game's `installed` set, while
every other user's installed status is unchanged. -/
theorem c3_installed_sync (s : DataStore) (u : Int) (ud : UserData)
    (gs : List (String × GameData)) (k : String) (e g : GameData)
    (hnd : (gs.map Prod.fst).Nodup)
    (hs : lookupKey k s.games = some e) (hinod : e.installed.Nodup)
    (hg : lookupKey k gs = some g) (hu : u ∉ g.installed) :
    ∃ e2, lookupKey k (update_user_data s u ud gs).games = some e2 ∧
      u ∉ e2.installed ∧ (∀ x, x ≠ u → (x ∈ e2.installed ↔ x ∈ e.installed)) := by
  refine ⟨mergeGame u e g, ?_, ?_, ?_⟩
  · show lookupKey k (updateGames u gs s.games) = some (mergeGame u e g)
    rw [lookupKey_updateGames u gs s.games hnd k, hs, hg]
  · show u ∉ syncInstalled u g.installed e.installed
    unfold syncInstalled
    split
    · rename_i h
      exact absurd h.1 hu
    · split
      · exact hinod.not_mem_erase
      · rename_i h1 h2
        intro hmem
        exact h2 ⟨hu, hmem⟩
  · intro x hx
    show x ∈ syncInstalled u g.installed e.installed ↔ x ∈ e.installed
    unfold syncInstalled
    split
    · rename_i h
      exact absurd h.1 hu
    · split
      · exact List.mem_erase_of_ne hx
      · exact Iff.rfl

theorem c3_installed_sync_witness :
    ∃ e2, lookupKey "steam_1"
        (update_user_data c3Store 7 sampleUser [("steam_1", c3Incoming)]).games =
        some e2 ∧
      7 ∉ e2.installed ∧ (∀ x, x ≠ 7 → (x ∈ e2.installed ↔ x ∈ c3Existing.installed)) :=
  c3_installed_sync c3Store 7 sampleUser [("steam_1", c3Incoming)] "steam_1"
    c3Existing c3Incoming (by decide) (by decide) (by decide) (by decide) (by decide)

/-! ## Claim C2: idempotence -/

attribute [ext] GameData UserData DataStore

theorem addIfAbsent_idem (u : Int) (l : List Int) :
    addIfAbsent u (addIfAbsent u l) = addIfAbsent u l := by
  have hm : u ∈ addIfAbsent u l := (mem_addIfAbsent u u l).mpr (Or.inr rfl)
  rw [show addIfAbsent u (addIfAbsent u l) =
      if u ∈ addIfAbsent u l then addIfAbsent u l else addIfAbsent u l ++ [u] from rfl,
    if_pos hm]

theorem syncInstalled_of_agree (u : Int) (inc ex : List Int)
    (h : u ∈ ex ↔ u ∈ inc) : syncInstalled u inc ex = ex := by
  unfold syncInstalled
  split
  · rename_i hc
    exact absurd (h.mpr hc.1) hc.2
  · split
    · rename_i hc
      exact absurd (h.mp hc.2) hc.1
    · rfl

theorem mem_self_syncInstalled (u : Int) (inc ex : List Int) (hnod : ex.Nodup) :
    u ∈ syncInstalled u inc ex ↔ u ∈ inc := by
  unfold syncInstalled
  split
  · rename_i hc
    simp [hc.1]
  · split
    · rename_i hc
      simp [hc.1, hnod.not_mem_erase]
    · rename_i h1 h2
      by_cases hi : u ∈ inc
      · simp only [hi, iff_true]
        by_contra hx
        exact h1 ⟨hi, hx⟩
      · simp only [hi, iff_false]
        intro hx
        exact h2 ⟨hi, hx⟩

theorem orMultiplayer_self_idem (e g : Bool) :
    orMultiplayer (orMultiplayer e g) g = orMultiplayer e g := by
  cases e <;> cases g <;> rfl

theorem mergeMaxPlayers_self_idem (a b : Option Int) :
    mergeMaxPlayers (mergeMaxPlayers a b) b = mergeMaxPlayers a b := by
  rcases a with _ | a <;> rcases b with _ | b <;>
    simp only [mergeMaxPlayers] <;> split_ifs <;> simp_all

theorem platUnion_absorb_right (a b : List String) :
    platUnion (platUnion a b) b = platUnion a b :=
  platUnion_self_absorb _ _ (fun x hx => (mem_platUnion x a b).mpr (Or.inr hx))

/-- Merging the same record twice for the same user is a no-op on the second
application. -/
theorem mergeGame_self_idem (u : Int) (e g : GameData)
    (hinod : e.installed.Nodup) :
    mergeGame u (mergeGame u e g) g = mergeGame u e g := by
  ext1
  · rfl
  · rfl
  · rfl
  · exact platUnion_absorb_right e.platforms g.platforms
  · exact addIfAbsent_idem u e.owners
  · exact syncInstalled_of_agree u g.installed _
      (mem_self_syncInstalled u g.installed e.installed hinod)
  · rfl
  · exact orMultiplayer_self_idem e.multiplayer g.multiplayer
  · exact mergeMaxPlayers_self_idem e.max_players g.max_players
  · rfl
  · rfl

/-- Merging a fresh ingestion record into itself is a no-op. -/
theorem mergeGame_self (u : Int) (g : GameData) (hu : u ∈ g.owners) :
    mergeGame u g g = g := by
  ext1
  · rfl
  · rfl
  · rfl
  · exact platUnion_self_absorb _ _ (fun x hx => hx)
  · show addIfAbsent u g.owners = g.owners
    simp [addIfAbsent, hu]
  · exact syncInstalled_of_agree u g.installed g.installed Iff.rfl
  · rfl
  · show orMultiplayer g.multiplayer g.multiplayer = g.multiplayer
    cases g.multiplayer <;> rfl
  · show mergeMaxPlayers g.max_players g.max_players = g.max_players
    rcases g.max_players with _ | m <;> simp [mergeMaxPlayers]
  · rfl
  · rfl

theorem map_eq_self_of {α : Type} (f : α → α) (l : List α)
    (h : ∀ a ∈ l, f a = a) : l.map f = l := by
  have h2 : ∀ a ∈ l, f a = id a := h
  rw [List.map_congr_left h2, List.map_id]

theorem modifyKey_modifyKey {κ ν : Type} [DecidableEq κ] (k : κ) (f g : ν → ν)
    (l : List (κ × ν)) :
    modifyKey k f (modifyKey k g l) = modifyKey k (fun v => f (g v)) l := by
  unfold modifyKey
  rw [List.map_map]
  apply List.map_congr_left
  intro p _
  by_cases h : p.1 = k <;> simp [h]

theorem upsertUser_idem (u : Int) (ud : UserData) (users : List (Int × UserData)) :
    upsertUser u ud (upsertUser u ud users) = upsertUser u ud users := by
  by_cases hc : containsKey u users = true
  · have h1 : upsertUser u ud users = modifyKey u (fun _ => ud) users := by
      simp [upsertUser, hc]
    have hc2 : containsKey u (modifyKey u (fun _ => ud) users) = true := by
      rw [modifyKey_eq_map_keyfun,
        containsKey_map_keyfun u (fun k v => if k = u then ud else v), hc]
    rw [h1]
    simp only [upsertUser, hc2, if_pos]
    exact modifyKey_modifyKey u _ _ users
  · have hcf : containsKey u users = false := by
      revert hc
      cases containsKey u users <;> simp
    have h1 : upsertUser u ud users = users ++ [(u, ud)] := by
      simp [upsertUser, hcf]
    have hc2 : containsKey u (users ++ [(u, ud)]) = true := by
      rw [containsKey_append]
      simp [containsKey]
    rw [h1]
    simp only [upsertUser, hc2, if_pos]
    unfold modifyKey
    rw [List.map_append]
    have hmap : users.map (fun p => if p.1 = u then (p.1, ud) else p) = users := by
      apply map_eq_self_of
      intro p hp
      have : p.1 ≠ u := (containsKey_eq_false_iff u users).mp hcf p hp
      simp [this]
    rw [hmap]
    simp

/-- The second application of the batch loop changes nothing. -/
theorem updateGames_idem (u : Int) (gs cat : List (String × GameData))
    (hwf : BatchWF u gs) (hcat : ∀ p ∈ cat, p.2.installed.Nodup) :
    updateGames u gs (updateGames u gs cat) = updateGames u gs cat := by
  obtain ⟨hnd, hrec⟩ := hwf
  rw [updateGames_eq u gs cat hnd, updateGames_eq u gs _ hnd]
  set A := cat.map (fun p => (p.1, mergeAt u gs p.1 p.2)) with hA
  set B := gs.filter (fun p => !containsKey p.1 cat) with hB
  have hBfil : gs.filter (fun p => !containsKey p.1 (A ++ B)) = [] := by
    rw [List.filter_eq_nil_iff]
    intro p hp
    rw [containsKey_append]
    by_cases hpc : containsKey p.1 cat = true
    · have : containsKey p.1 A = true := by
        rw [hA, containsKey_map_keyfun p.1 (fun k v => mergeAt u gs k v), hpc]
      simp [this]
    · have hpcf : containsKey p.1 cat = false := by
        revert hpc
        cases containsKey p.1 cat <;> simp
      have hmem : p ∈ B := by
        rw [hB, List.mem_filter]
        exact ⟨hp, by simp [hpcf]⟩
      have : containsKey p.1 B = true :=
        (containsKey_iff_exists _ _).mpr ⟨p, hmem, rfl⟩
      simp [this]
  rw [hBfil, List.append_nil, List.map_append]
  have hAmap : A.map (fun p => (p.1, mergeAt u gs p.1 p.2)) = A := by
    rw [hA, List.map_map]
    apply List.map_congr_left
    intro p hp
    simp only [Function.comp]
    rcases hl : lookupKey p.1 gs with _ | g
    · simp [mergeAt, hl]
    · simp only [mergeAt, hl]
      exact congrArg _ (mergeGame_self_idem u p.2 g (hcat p hp))
  have hBmap : B.map (fun p => (p.1, mergeAt u gs p.1 p.2)) = B := by
    apply map_eq_self_of
    intro p hp
    have hpgs : p ∈ gs := List.mem_of_mem_filter hp
    have hl : lookupKey p.1 gs = some p.2 := lookupKey_of_mem_nodup hnd hpgs
    have hown : u ∈ p.2.owners := by
      rw [(hrec p hpgs).1]
      simp
    simp [mergeAt, hl, mergeGame_self u p.2 hown]
  rw [hAmap, hBmap]

/-! ## Claim C2: order independence -/

/-- Two optional catalog records agree on the union fields the claim compares:
owners and platforms as sets, multiplayer, and max_players. -/
def contentEquiv : Option GameData → Option GameData → Prop
  | none, none => True
  | some a, some b =>
      (∀ x : Int, x ∈ a.owners ↔ x ∈ b.owners) ∧
      (∀ p : String, p ∈ a.platforms ↔ p ∈ b.platforms) ∧
      a.multiplayer = b.multiplayer ∧ a.max_players = b.max_players
  | _, _ => False

theorem contentEquiv_refl (o : Option GameData) : contentEquiv o o := by
  rcases o with _ | a
  · trivial
  · exact ⟨fun _ => Iff.rfl, fun _ => Iff.rfl, rfl, rfl⟩

theorem owners_mergeGame (u : Int) (e g : GameData) :
    (mergeGame u e g).owners = addIfAbsent u e.owners := rfl

theorem platforms_mergeGame (u : Int) (e g : GameData) :
    (mergeGame u e g).platforms = platUnion e.platforms g.platforms := rfl

theorem multiplayer_mergeGame (u : Int) (e g : GameData) :
    (mergeGame u e g).multiplayer = (e.multiplayer || g.multiplayer) :=
  orMultiplayer_eq_or e.multiplayer g.multiplayer

theorem max_players_mergeGame (u : Int) (e g : GameData) :
    (mergeGame u e g).max_players = mergeMaxPlayers e.max_players g.max_players := rfl

theorem mergeMaxPlayers_none_left (b : Option Int) :
    mergeMaxPlayers none b = b := by
  rcases b with _ | b <;> rfl

theorem mergeMaxPlayers_none_right (a : Option Int) :
    mergeMaxPlayers a none = a := by
  rcases a with _ | a <;> rfl

theorem mergeMaxPlayers_some_some (a b : Int) :
    mergeMaxPlayers (some a) (some b) = some (max a b) := by
  simp only [mergeMaxPlayers]
  split_ifs <;> simp only [Option.some.injEq] <;> omega

theorem mergeMaxPlayers_comm (a b : Option Int) :
    mergeMaxPlayers a b = mergeMaxPlayers b a := by
  rcases a with _ | a <;> rcases b with _ | b <;>
    simp only [mergeMaxPlayers_none_left, mergeMaxPlayers_none_right,
      mergeMaxPlayers_some_some, Option.some.injEq]
  omega

theorem mergeMaxPlayers_rev3 (a b c : Option Int) :
    mergeMaxPlayers (mergeMaxPlayers a b) c =
      mergeMaxPlayers (mergeMaxPlayers c b) a := by
  rcases a with _ | a <;> rcases b with _ | b <;> rcases c with _ | c <;>
    simp only [mergeMaxPlayers_none_left, mergeMaxPlayers_none_right,
      mergeMaxPlayers_some_some, Option.some.injEq] <;> omega

/-- Per-key view of one `update_user_data` call. -/
theorem lookupKey_update_user_data (s : DataStore) (u : Int) (ud : UserData)
    (gs : List (String × GameData)) (hnd : (gs.map Prod.fst).Nodup) (k : String) :
    lookupKey k (update_user_data s u ud gs).games =
      match lookupKey k s.games, lookupKey k gs with
      | some e, some g => some (mergeGame u e g)
      | some e, none => some e
      | none, r => r :=
  lookupKey_updateGames u gs s.games hnd k

theorem mem_owners_mergeGame (x u : Int) (e g : GameData) :
    x ∈ (mergeGame u e g).owners ↔ x ∈ e.owners ∨ x = u := by
  rw [owners_mergeGame]
  exact mem_addIfAbsent x u e.owners

theorem mem_platforms_mergeGame (p : String) (u : Int) (e g : GameData) :
    p ∈ (mergeGame u e g).platforms ↔ p ∈ e.platforms ∨ p ∈ g.platforms := by
  rw [platforms_mergeGame]
  exact mem_platUnion p e.platforms g.platforms

/-- The per-key effect of one user's merge on an accumulated optional record. -/
def mergeStep (u : Int) (acc g : Option GameData) : Option GameData :=
  match acc, g with
  | some e, some g2 => some (mergeGame u e g2)
  | some e, none => some e
  | none, r => r

theorem lookupKey_three_updates (u1 u2 u3 : Int) (ud1 ud2 ud3 : UserData)
    (gs1 gs2 gs3 : List (String × GameData))
    (h1 : (gs1.map Prod.fst).Nodup) (h2 : (gs2.map Prod.fst).Nodup)
    (h3 : (gs3.map Prod.fst).Nodup) (k : String) :
    lookupKey k (update_user_data (update_user_data
        (update_user_data emptyStore u1 ud1 gs1) u2 ud2 gs2) u3 ud3 gs3).games =
      mergeStep u3 (mergeStep u2 (lookupKey k gs1) (lookupKey k gs2))
        (lookupKey k gs3) := by
  rw [lookupKey_update_user_data _ u3 ud3 gs3 h3 k,
    lookupKey_update_user_data _ u2 ud2 gs2 h2 k,
    lookupKey_update_user_data _ u1 ud1 gs1 h1 k]
  rfl

theorem contentEquiv_mergeStep_rev3 (u1 u2 u3 : Int) (a1 a2 a3 : Option GameData)
    (h1 : ∀ g ∈ a1, g.owners = [u1]) (h2 : ∀ g ∈ a2, g.owners = [u2])
    (h3 : ∀ g ∈ a3, g.owners = [u3]) :
    contentEquiv (mergeStep u3 (mergeStep u2 a1 a2) a3)
      (mergeStep u1 (mergeStep u2 a3 a2) a1) := by
  rcases a1 with _ | g1 <;> rcases a2 with _ | g2 <;> rcases a3 with _ | g3 <;>
    simp only [mergeStep]
  · trivial
  · exact contentEquiv_refl _
  · exact contentEquiv_refl _
  · have ho2 := h2 g2 rfl
    have ho3 := h3 g3 rfl
    refine ⟨?_, ?_, ?_, ?_⟩
    · intro x
      simp only [mem_owners_mergeGame, ho2, ho3, List.mem_singleton]
      tauto
    · intro p
      simp only [mem_platforms_mergeGame]
      tauto
    · simp [multiplayer_mergeGame, Bool.or_comm]
    · simp only [max_players_mergeGame]
      exact mergeMaxPlayers_comm _ _
  · exact contentEquiv_refl _
  · have ho1 := h1 g1 rfl
    have ho3 := h3 g3 rfl
    refine ⟨?_, ?_, ?_, ?_⟩
    · intro x
      simp only [mem_owners_mergeGame, ho1, ho3, List.mem_singleton]
      tauto
    · intro p
      simp only [mem_platforms_mergeGame]
      tauto
    · simp [multiplayer_mergeGame, Bool.or_comm]
    · simp only [max_players_mergeGame]
      exact mergeMaxPlayers_comm _ _
  · have ho1 := h1 g1 rfl
    have ho2 := h2 g2 rfl
    refine ⟨?_, ?_, ?_, ?_⟩
    · intro x
      simp only [mem_owners_mergeGame, ho1, ho2, List.mem_singleton]
      tauto
    · intro p
      simp only [mem_platforms_mergeGame]
      tauto
    · simp [multiplayer_mergeGame, Bool.or_comm]
    · simp only [max_players_mergeGame]
      exact mergeMaxPlayers_comm _ _
  · have ho1 := h1 g1 rfl
    have ho2 := h2 g2 rfl
    have ho3 := h3 g3 rfl
    refine ⟨?_, ?_, ?_, ?_⟩
    · intro x
      simp only [mem_owners_mergeGame, ho1, ho2, ho3, List.mem_singleton]
      tauto
    · intro p
      simp only [mem_platforms_mergeGame]
      tauto
    · simp [multiplayer_mergeGame, Bool.or_comm, Bool.or_left_comm, Bool.or_assoc]
    · simp only [max_players_mergeGame]
      exact mergeMaxPlayers_rev3 _ _ _

/-- C2: the per-user merge is idempotent for identical input (on stores whose
installed lists are duplicate free, as every reachable store is), and merging
three users' batches from the empty store in order A, B, C produces, for every
release key, the same owners set, platforms set, multiplayer flag and
max_players value as merging in order C, B, A. -/
theorem c2_merge_idempotent_order_independent :
    (∀ (s : DataStore) (u : Int) (ud : UserData) (gs : List (String × GameData)),
      BatchWF u gs → (∀ p ∈ s.games, p.2.installed.Nodup) →
      update_user_data (update_user_data s u ud gs) u ud gs =
        update_user_data s u ud gs) ∧
    (∀ (u1 u2 u3 : Int) (ud1 ud2 ud3 : UserData)
        (gs1 gs2 gs3 : List (String × GameData)),
      BatchWF u1 gs1 → BatchWF u2 gs2 → BatchWF u3 gs3 →
      ∀ k : String, contentEquiv
        (lookupKey k (update_user_data (update_user_data
          (update_user_data emptyStore u1 ud1 gs1) u2 ud2 gs2) u3 ud3 gs3).games)
        (lookupKey k (update_user_data (update_user_data
          (update_user_data emptyStore u3 ud3 gs3) u2 ud2 gs2) u1 ud1 gs1).games)) := by
  constructor
  · intro s u ud gs hwf hcat
    ext1
    · exact congrArg DataStore.users (rfl : update_user_data s u ud gs = _) ▸
        upsertUser_idem u ud s.users
    · exact updateGames_idem u gs s.games hwf hcat
    · rfl
    · rfl
  · intro u1 u2 u3 ud1 ud2 ud3 gs1 gs2 gs3 hw1 hw2 hw3 k
    rw [lookupKey_three_updates u1 u2 u3 ud1 ud2 ud3 gs1 gs2 gs3
        hw1.1 hw2.1 hw3.1 k,
      lookupKey_three_updates u3 u2 u1 ud3 ud2 ud1 gs3 gs2 gs1
        hw3.1 hw2.1 hw1.1 k]
    apply contentEquiv_mergeStep_rev3
    · intro g hg
      exact (hw1.2 _ (lookupKey_mem k gs1 hg)).1
    · intro g hg
      exact (hw2.2 _ (lookupKey_mem k gs2 hg)).1
    · intro g hg
      exact (hw3.2 _ (lookupKey_mem k gs3 hg)).1

/-- The ingestion record of user `u` for release key `gog_5`. -/
def c2Game (u : Int) : GameData :=
  { release_key := "gog_5", title := "Game B", slug := "gameb",
    platforms := ["gog"], owners := [u], installed := [],
    igdb_key := "gog_5" }

theorem c2_merge_idempotent_order_independent_witness :
    (BatchWF 7 [("steam_1", gameSteam1)] ∧
      (∀ p ∈ emptyStore.games, p.2.installed.Nodup) ∧
      update_user_data (update_user_data emptyStore 7 sampleUser
          [("steam_1", gameSteam1)]) 7 sampleUser [("steam_1", gameSteam1)] =
        update_user_data emptyStore 7 sampleUser [("steam_1", gameSteam1)]) ∧
    (BatchWF 1 [("gog_5", c2Game 1)] ∧ BatchWF 2 [("gog_5", c2Game 2)] ∧
      BatchWF 3 [("gog_5", c2Game 3)] ∧
      (∀ k : String, contentEquiv
        (lookupKey k (update_user_data (update_user_data
          (update_user_data emptyStore 1 sampleUser [("gog_5", c2Game 1)])
          2 sampleUser [("gog_5", c2Game 2)]) 3 sampleUser [("gog_5", c2Game 3)]).games)
        (lookupKey k (update_user_data (update_user_data
          (update_user_data emptyStore 3 sampleUser [("gog_5", c2Game 3)])
          2 sampleUser [("gog_5", c2Game 2)]) 1 sampleUser [("gog_5", c2Game 1)]).games))) := by
  have hw7 : BatchWF 7 [("steam_1", gameSteam1)] := by constructor <;> decide
  have hw1 : BatchWF 1 [("gog_5", c2Game 1)] := by constructor <;> decide
  have hw2 : BatchWF 2 [("gog_5", c2Game 2)] := by constructor <;> decide
  have hw3 : BatchWF 3 [("gog_5", c2Game 3)] := by constructor <;> decide
  have hcat : ∀ p ∈ emptyStore.games, p.2.installed.Nodup := by
    intro p hp
    simp [emptyStore] at hp
  exact ⟨⟨hw7, hcat,
      c2_merge_idempotent_order_independent.1 emptyStore 7 sampleUser
        [("steam_1", gameSteam1)] hw7 hcat⟩,
    hw1, hw2, hw3,
    c2_merge_idempotent_order_independent.2 1 2 3 sampleUser sampleUser sampleUser
      [("gog_5", c2Game 1)] [("gog_5", c2Game 2)] [("gog_5", c2Game 3)] hw1 hw2 hw3⟩

/-! ## Persistence: backup rotation and save (data_store_helper.py 115-187) -/

/-- The files the store helper touches: the live data store file and the
numbered backup files `<path>.backup.<n>`, holding abstract file contents. -/
structure FileState (α : Type) where
  live : Option α
  backup : Nat → Option α

/-- Write (or delete, with `none`) backup slot `i`. -/
def backupWrite {α : Type} (b : Nat → Option α) (i : Nat) (v : Option α) :
    Nat → Option α :=
  fun j => if j = i then v else b j

/-- One iteration of the rotation loop (lines 164-178) for index `i`:
if backup `i` exists, remove it when `i = max_backups - 1`, otherwise move it
to slot `i + 1`. -/
def rotateStep {α : Type} (maxB : Nat) (b : Nat → Option α) (i : Nat) :
    Nat → Option α :=
  if (b i).isSome then
    if i = maxB - 1 then backupWrite b i none
    else backupWrite (backupWrite b (i + 1) (b i)) i none
  else b

/-- `range(max_backups - 1, 0, -1)`, the indices `max_backups-1, ..., 1`. -/
def rotationIndices (maxB : Nat) : List Nat :=
  ((List.range (maxB - 1)).map (· + 1)).reverse

/-- The sequence of state changes `_rotate_backups` performs: the loop
iterations, then the copy of the live file to backup slot 1 (lines 181-184). -/
def rotateActions {α : Type} (maxB : Nat) (fs : FileState α) :
    List ((Nat → Option α) → (Nat → Option α)) :=
  (rotationIndices maxB).map (fun i b => rotateStep maxB b i) ++
    [fun b => if fs.live.isSome then backupWrite b 1 fs.live else b]

/-- `DataStoreHelper._rotate_backups` (lines 160-187), the run in which no
exception occurs. -/
def rotate_backups {α : Type} (maxB : Nat) (fs : FileState α) : FileState α :=
  { fs with backup := (rotateActions maxB fs).foldl (fun b f => f b) fs.backup }

/-- `_rotate_backups` when an exception interrupts it after `j` completed
actions; the `except` clause only logs, so the partial result stands. -/
def rotate_backups_upTo {α : Type} (maxB : Nat) (fs : FileState α) (j : Nat) :
    FileState α :=
  { fs with backup := ((rotateActions maxB fs).take j).foldl (fun b f => f b) fs.backup }

/-- `DataStoreHelper.save_data_store` (lines 115-158) on a run with no
exception: rotate backups if the live file exists, then atomically replace the
live file with the new serialized content and return `True`. -/
def save_data_store {α : Type} (maxB : Nat) (fs : FileState α) (content : α) :
    FileState α × Bool :=
  let fs1 := if fs.live.isSome then rotate_backups maxB fs else fs
  ({ live := some content, backup := fs1.backup }, true)

/-- Which steps of a `save_data_store` run raise an exception. A rotation
failure is caught inside `_rotate_backups` (lines 186-187); failures of the
timestamp update, serialization, temp-file write or atomic move are caught by
the `except` clause of `save_data_store` (lines 156-158). -/
structure SaveFailure where
  rotationFails : Bool
  rotationDone : Nat
  stampFails : Bool
  serializeFails : Bool
  writeTempFails : Bool
  replaceFails : Bool
deriving Repr, DecidableEq

/-- `DataStoreHelper.save_data_store` with the failure behaviour of each step
made explicit. Only the atomic move (or a fully successful run) changes the
live file; every failure after rotation aborts with `False`. -/
def save_data_store_fallible {α : Type} (maxB : Nat) (fs : FileState α)
    (content : α) (f : SaveFailure) : FileState α × Bool :=
  let fs1 := if fs.live.isSome then
      (if f.rotationFails then rotate_backups_upTo maxB fs f.rotationDone
       else rotate_backups maxB fs)
    else fs
  if f.stampFails then (fs1, false)
  else if f.serializeFails then (fs1, false)
  else if f.writeTempFails then (fs1, false)
  else if f.replaceFails then (fs1, false)
  else ({ live := some content, backup := fs1.backup }, true)

/-- Number of existing backup files among slots `1 .. maxB`. -/
def countBackups {α : Type} (maxB : Nat) (fs : FileState α) : Nat :=
  (((List.range maxB).map (· + 1)).filter (fun i => (fs.backup i).isSome)).length

/-! ## Claim C4 -/

/-- C4 fails on the code: with `max_backups = 3` and no pre-existing files,
four consecutive saves of contents 1, 2, 3, 4 leave only TWO backup files, not
three: the rotation loop removes slot `max_backups - 1` instead of moving it
to slot `max_backups`, so slot 3 is never created. Slot 1 does hold the state
of the save immediately prior to the most recent one. -/
theorem c4_backup_rotation_behavior :
    countBackups 3 (save_data_store 3 (save_data_store 3 (save_data_store 3
        (save_data_store 3 (⟨none, fun _ => none⟩ : FileState Nat) 1).1 2).1
        3).1 4).1 = 2 ∧
    (save_data_store 3 (save_data_store 3 (save_data_store 3
        (save_data_store 3 (⟨none, fun _ => none⟩ : FileState Nat) 1).1 2).1
        3).1 4).1.backup 1 = some 3 ∧
    (save_data_store 3 (save_data_store 3 (save_data_store 3
        (save_data_store 3 (⟨none, fun _ => none⟩ : FileState Nat) 1).1 2).1
        3).1 4).1.backup 2 = some 2 ∧
    (save_data_store 3 (save_data_store 3 (save_data_store 3
        (save_data_store 3 (⟨none, fun _ => none⟩ : FileState Nat) 1).1 2).1
        3).1 4).1.backup 3 = none ∧
    (save_data_store 3 (save_data_store 3 (save_data_store 3
        (save_data_store 3 (⟨none, fun _ => none⟩ : FileState Nat) 1).1 2).1
        3).1 4).1.live = some 4 := by
  refine ⟨?_, ?_, ?_, ?_, ?_⟩ <;> decide

/-! ## Claim C5 -/

/-- A file state with a live store file of content 10 and no backups. -/
def c5FS : FileState Nat := ⟨some 10, fun _ => none⟩

/-- A run in which the very first backup-rotation action raises. -/
def c5RotFail : SaveFailure :=
  { rotationFails := true, rotationDone := 0, stampFails := false,
    serializeFails := false, writeTempFails := false, replaceFails := false }

/-- C5 is false on the code: a failure during backup rotation does NOT make
save return false — the exception is swallowed inside `_rotate_backups`, the
save continues, replaces the live file and returns true. -/
theorem c5_counterexample :
    (save_data_store_fallible 3 c5FS 11 c5RotFail).2 = true ∧
    (save_data_store_fallible 3 c5FS 11 c5RotFail).1.live = some 11 ∧
    ((some 11 : Option Nat) ≠ some 10) := by
  refine ⟨by decide, by decide, by decide⟩

/-- C5 amended: a failure in timestamp stamping, serialization, temp-file
writing (or the atomic replace itself) makes save return false with the live
file unchanged, and save returns true only when the atomic replace completed,
i.e. the live file then holds the new content; backup-rotation failures are
caught inside the rotation and do not abort the save. -/
theorem c5_save_failure_semantics {α : Type} (maxB : Nat) (fs : FileState α)
    (content : α) (f : SaveFailure) :
    ((f.stampFails || f.serializeFails || f.writeTempFails || f.replaceFails) = true →
      (save_data_store_fallible maxB fs content f).2 = false ∧
      (save_data_store_fallible maxB fs content f).1.live = fs.live) ∧
    ((save_data_store_fallible maxB fs content f).2 = true →
      (save_data_store_fallible maxB fs content f).1.live = some content) := by
  have hlive : (if fs.live.isSome then
      (if f.rotationFails then rotate_backups_upTo maxB fs f.rotationDone
       else rotate_backups maxB fs)
    else fs).live = fs.live := by
    split
    · split <;> rfl
    · rfl
  simp only [save_data_store_fallible]
  constructor
  · intro h
    rcases h1 : f.stampFails with _ | _
    · rcases h2 : f.serializeFails with _ | _
      · rcases h3 : f.writeTempFails with _ | _
        · rcases h4 : f.replaceFails with _ | _
          · rw [h1, h2, h3, h4] at h
            simp at h
          · simp only [h1, h2, h3, h4, if_false, if_true, Bool.false_eq_true]
            exact ⟨by simp, hlive⟩
        · simp only [h1, h2, h3, if_false, if_true, Bool.false_eq_true]
          exact ⟨by simp, hlive⟩
      · simp only [h1, h2, if_false, if_true, Bool.false_eq_true]
        exact ⟨by simp, hlive⟩
    · simp only [h1, if_true]
      exact ⟨by simp, hlive⟩
  · intro h
    rcases h1 : f.stampFails with _ | _ <;>
      rcases h2 : f.serializeFails with _ | _ <;>
        rcases h3 : f.writeTempFails with _ | _ <;>
          rcases h4 : f.replaceFails with _ | _ <;>
            simp only [h1, h2, h3, h4, if_true, if_false, Bool.false_eq_true] at h ⊢

/-- A run in which the timestamp update raises. -/
def c5StampFail : SaveFailure :=
  { rotationFails := false, rotationDone := 0, stampFails := true,
    serializeFails := false, writeTempFails := false, replaceFails := false }

theorem c5_save_failure_semantics_witness :
    (c5StampFail.stampFails || c5StampFail.serializeFails ||
      c5StampFail.writeTempFails || c5StampFail.replaceFails) = true ∧
    (save_data_store_fallible 3 c5FS 11 c5StampFail).2 = false ∧
    (save_data_store_fallible 3 c5FS 11 c5StampFail).1.live = c5FS.live :=
  ⟨by decide,
    ((c5_save_failure_semantics 3 c5FS 11 c5StampFail).1 (by decide)).1,
    ((c5_save_failure_semantics 3 c5FS 11 c5StampFail).1 (by decide)).2⟩

/-! ## Comparison query over the data store (__main__.py 293-383) -/

/-- The exclusive branch (lines 335-347): skip the game when a non-selected
known user owns it, then require at least one selected owner. -/
def exclusiveFilter (allUsers targets : List Int) (g : GameData) : Bool :=
  let nonComparingOwners :=
    g.owners.filter (fun o => decide (o ∈ allUsers) && !decide (o ∈ targets))
  if !nonComparingOwners.isEmpty then false
  else !(g.owners.filter (fun o => decide (o ∈ targets))).isEmpty

/-- Lines 353-358: with a non-empty exclusion list, drop the game when all its
platforms are excluded. -/
def platformFilter (excludePlatforms : List String) (g : GameData) : Bool :=
  if !excludePlatforms.isEmpty then
    !(g.platforms.all (fun p => decide (p ∈ excludePlatforms)))
  else true

/-- The per-game keep decision of `get_common_games_from_data_store`
(lines 330-362). -/
def keepGame (exclusive : Bool) (allUsers targets : List Int)
    (excludePlatforms : List String) (includeSinglePlayer : Bool)
    (g : GameData) : Bool :=
  (if exclusive then exclusiveFilter allUsers targets g
   else targets.all (fun o => decide (o ∈ g.owners))) &&
  platformFilter excludePlatforms g &&
  (includeSinglePlayer || g.multiplayer)

/-- `get_common_games_from_data_store` (lines 293-383), restricted to its
filtering effect on the catalog (the output record is the input record). -/
def get_common_games_from_data_store (store : DataStore) (targets : List Int)
    (excludePlatforms : List String) (includeSinglePlayer exclusive : Bool) :
    List (String × GameData) :=
  store.games.filter (fun p =>
    keepGame exclusive (store.users.map Prod.fst) targets excludePlatforms
      includeSinglePlayer p.2)

/-! ## Claim C7 -/

/-- C7: in exclusive mode (platform and single-player filters neutral), a game
is kept iff some selected user owns it and no known non-selected user owns
it. -/
theorem c7_exclusive_mode (store : DataStore) (targets : List Int) (k : String)
    (g : GameData) :
    (k, g) ∈ get_common_games_from_data_store store targets [] true true ↔
      ((k, g) ∈ store.games ∧
        (∃ o ∈ g.owners, o ∈ targets) ∧
        (∀ o ∈ g.owners, o ∈ store.users.map Prod.fst → o ∈ targets)) := by
  rw [get_common_games_from_data_store, List.mem_filter]
  have hkeep : ∀ gd : GameData,
      keepGame true (store.users.map Prod.fst) targets [] true gd = true ↔
        ((∃ o ∈ gd.owners, o ∈ targets) ∧
          (∀ o ∈ gd.owners, o ∈ store.users.map Prod.fst → o ∈ targets)) := by
    intro gd
    simp only [keepGame, if_true, platformFilter, List.isEmpty_nil, Bool.not_true,
      Bool.false_eq_true, if_false, Bool.and_true, Bool.true_or,
      exclusiveFilter]
    constructor
    · intro h
      rcases hne : (gd.owners.filter
          (fun o => decide (o ∈ store.users.map Prod.fst) &&
            !decide (o ∈ targets))).isEmpty with _ | _
      · rw [hne] at h
        simp at h
      · rw [hne] at h
        simp only [Bool.not_true, Bool.false_eq_true, if_false] at h
        constructor
        · simp only [Bool.not_eq_true', List.isEmpty_eq_false,
            ne_eq, ← List.filter_eq_nil_iff] at h
          rcases hx : gd.owners.filter (fun o => decide (o ∈ targets)) with _ | ⟨o, rest⟩
          · exact absurd hx h
          · have : o ∈ gd.owners.filter (fun o => decide (o ∈ targets)) := by
              rw [hx]
              simp
            rw [List.mem_filter] at this
            exact ⟨o, this.1, by simpa using this.2⟩
        · intro o ho hall
          by_contra hnt
          have : o ∈ gd.owners.filter
              (fun o => decide (o ∈ store.users.map Prod.fst) &&
                !decide (o ∈ targets)) := by
            rw [List.mem_filter]
            exact ⟨ho, by simp [hall, hnt]⟩
          rw [List.isEmpty_iff] at hne
          rw [hne] at this
          simp at this
    · rintro ⟨⟨o, ho, hot⟩, hnone⟩
      have hne : (gd.owners.filter
          (fun o => decide (o ∈ store.users.map Prod.fst) &&
            !decide (o ∈ targets))).isEmpty = true := by
        rw [List.isEmpty_iff, List.filter_eq_nil_iff]
        intro x hx
        by_cases hxu : x ∈ store.users.map Prod.fst
        · simp [hxu, hnone x hx hxu]
        · simp [hxu]
      rw [hne]
      simp only [Bool.not_true, Bool.false_eq_true, if_false, Bool.not_eq_true',
        List.isEmpty_eq_false, ne_eq, ← List.filter_eq_nil_iff]
      intro hnil
      have : o ∈ gd.owners.filter (fun o => decide (o ∈ targets)) := by
        rw [List.mem_filter]
        exact ⟨ho, by simp [hot]⟩
      rw [hnil] at this
      simp at this
  constructor
  · rintro ⟨hmem, hk⟩
    exact ⟨hmem, (hkeep g).mp hk⟩
  · rintro ⟨hmem, h⟩
    exact ⟨hmem, (hkeep g).mpr h⟩

/-! ## External reference key resolution (database.py 120-154) -/

/-- `str.startswith(p)`, expressed on the character lists. -/
def strStartsWith (s p : String) : Bool :=
  p.data.isPrefixOf s.data

/-- `k.startswith("steam_") and not k.startswith("steam_steam_")` (line 145). -/
def isUsableSteamKey (k : String) : Bool :=
  strStartsWith k "steam_" && !(strStartsWith k "steam_steam_")

/-- `k.startswith("gog_")` (line 150). -/
def isGogKey (k : String) : Bool :=
  strStartsWith k "gog_"

/-- `Database.get_igdb_release_key` (lines 120-154) from the point where the
alias list has been read: `releases = none` models a lookup result without a
`"releases"` field. -/
def get_igdb_release_key (releases : Option (List String))
    (release_key : String) : String :=
  match releases with
  | none => release_key
  | some ks =>
    match ks.find? isUsableSteamKey with
    | some k => k
    | none =>
      match ks.find? isGogKey with
      | some k => k
      | none => release_key

/-- The resolution rule as the claim states it: nested duplicates are excluded
from the GOG scan as well. -/
def get_igdb_release_key_claimed (releases : Option (List String))
    (release_key : String) : String :=
  match releases with
  | none => release_key
  | some ks =>
    match ks.find? isUsableSteamKey with
    | some k => k
    | none =>
      match ks.find? (fun k => isGogKey k && !(strStartsWith k "gog_gog_")) with
      | some k => k
      | none => release_key

/-! ## Claim C8 -/

/-- C8 is false on the code: the GOG scan does not exclude nested duplicates.
On the alias list `["gog_gog_55"]` the code returns `"gog_gog_55"`, while the
claimed rule skips it and falls back to the original release key. -/
theorem c8_counterexample :
    get_igdb_release_key (some ["gog_gog_55"]) "origin_55" = "gog_gog_55" ∧
    get_igdb_release_key_claimed (some ["gog_gog_55"]) "origin_55" = "origin_55" ∧
    ("gog_gog_55" : String) ≠ "origin_55" := by
  refine ⟨by decide, by decide, by decide⟩

/-- C8 amended: the resolver returns the first alias that starts with
`"steam_"` but not `"steam_steam_"`; failing that, the first alias starting
with `"gog_"` (nested `gog_gog_` duplicates are NOT excluded); failing that,
the original release key; a result without an alias list also yields the
original release key. -/
theorem c8_reference_key_resolution (ks : List String) (rk : String) :
    (get_igdb_release_key none rk = rk) ∧
    (∀ k, ks.find? isUsableSteamKey = some k →
      get_igdb_release_key (some ks) rk = k) ∧
    (ks.find? isUsableSteamKey = none →
      ∀ k, ks.find? isGogKey = some k → get_igdb_release_key (some ks) rk = k) ∧
    (ks.find? isUsableSteamKey = none → ks.find? isGogKey = none →
      get_igdb_release_key (some ks) rk = rk) := by
  refine ⟨rfl, ?_, ?_, ?_⟩
  · intro k hk
    simp [get_igdb_release_key, hk]
  · intro hs k hk
    simp [get_igdb_release_key, hs, hk]
  · intro hs hg
    simp [get_igdb_release_key, hs, hg]

theorem c8_reference_key_resolution_witness :
    (["origin_55", "steam_55", "steam_steam_55"].find? isUsableSteamKey =
      some "steam_55") ∧
    get_igdb_release_key (some ["origin_55", "steam_55", "steam_steam_55"])
      "origin_55" = "steam_55" :=
  ⟨by decide,
    (c8_reference_key_resolution ["origin_55", "steam_55", "steam_steam_55"]
      "origin_55").2.1 "steam_55" (by decide)⟩

/-! ## Duplicate-title merge (gamatrix_gog.py, gogDB.merge_duplicate_titles) -/

/-- One entry of the old `game_list` dict: title, sanitized title, sorted
owner list and platform list. -/
structure GEntry where
  title : String
  sanitized_title : String
  owners : List Int
  platforms : List String
deriving Repr, DecidableEq, Inhabited

/-- Lexicographic code-point comparison of character lists (the ordering
Python uses on strings). -/
def charListLe : List Char → List Char → Bool
  | [], _ => true
  | _ :: _, [] => false
  | a :: as, b :: bs =>
    if a.toNat < b.toNat then true
    else if b.toNat < a.toNat then false
    else charListLe as bs

/-- `a <= b` on strings, by code points. -/
def strLe (a b : String) : Bool :=
  charListLe a.data b.data

/-- Stable ascending insertion (model of Python `sorted` on strings). -/
def insertSorted (x : String) : List String → List String
  | [] => [x]
  | y :: ys => if strLe x y then x :: y :: ys else y :: insertSorted x ys

/-- Model of `sorted(platforms)` (line 312). -/
def sortStrings : List String → List String
  | [] => []
  | x :: rest => insertSorted x (sortStrings rest)

/-- `game_list[key]`; the algorithm only reads keys present in the dict,
so the default entry is never produced on the runs modelled here. -/
def origEntry (orig : List (String × GEntry)) (key : String) : GEntry :=
  (lookupKey key orig).getD default

/-- The `while` loop of `merge_duplicate_titles` (lines 278-323): scan keys
from position `q` while the sanitized title matches; when the owners also
match, accumulate the duplicate's first platform, delete the duplicate from
the working dict and store the sorted platform union on key `k`; stop when the
scanned position reaches `len(keys) - 2`. The fuel argument bounds the
recursion by the list length. -/
def dupScanInner (orig : List (String × GEntry)) (keys : List String)
    (st : String) (owners : List Int) (k : String) :
    Nat → Nat → List String → List (String × GEntry) → List (String × GEntry)
  | 0, _, _, working => working
  | fuel + 1, q, plats, working =>
    let n := keys.length
    let next_key := keys.getD q ""
    let e := origEntry orig next_key
    if e.sanitized_title = st then
      let plats2 :=
        if e.owners = owners then
          (if e.platforms.headD "" ∈ plats then plats
           else plats ++ [e.platforms.headD ""])
        else plats
      let working2 :=
        if e.owners = owners then
          modifyKey k (fun ge => { ge with platforms := sortStrings plats2 })
            (eraseKey next_key working)
        else working
      if q ≥ n - 2 then working2
      else dupScanInner orig keys st owners k fuel (q + 1) plats2 working2
    else working

/-- One iteration of the outer `for k in keys` loop (lines 268-323): skip keys
already deleted and keys at position `len(keys) - 2` or later, otherwise run
the inner scan from the next position. -/
def dupScanStep (orig : List (String × GEntry)) (keys : List String)
    (working : List (String × GEntry)) (p : Nat) : List (String × GEntry) :=
  let n := keys.length
  let k := keys.getD p ""
  if ¬ (containsKey k working = true) ∨ p ≥ n - 2 then working
  else
    let e := origEntry orig k
    dupScanInner orig keys e.sanitized_title e.owners k n (p + 1) e.platforms
      working

/-- `gogDB.merge_duplicate_titles` (gamatrix_gog.py lines 264-325). -/
def merge_duplicate_titles (game_list : List (String × GEntry)) :
    List (String × GEntry) :=
  let keys := game_list.map Prod.fst
  (List.range keys.length).foldl (dupScanStep game_list keys) game_list

/-! ## Claim C9 -/

/-- The claim's concrete Steam record. -/
def c9Steam : GEntry :=
  { title := "GameA", sanitized_title := "gamea", owners := [7],
    platforms := ["steam"] }

/-- The claim's concrete GOG record. -/
def c9Gog : GEntry :=
  { title := "GameA", sanitized_title := "gamea", owners := [7],
    platforms := ["gog"] }

/-- An unrelated trailing record with a later slug. -/
def c9Tail : GEntry :=
  { title := "Zzz", sanitized_title := "zzz", owners := [9],
    platforms := ["origin"] }

/-- C9 fails on the code for adjacent duplicates at the end of the list: on
the two-entry catalog of the claim's concrete case, nothing is merged (the
outer loop skips every key at position `len(keys) - 2` or later), so both
records survive. With a third, differently-slugged entry appended, the same
pair IS merged into one record with platforms `["gog", "steam"]`, confirming
the merge path itself. -/
theorem c9_adjacent_merge_end_of_list :
    merge_duplicate_titles [("steam_100", c9Steam), ("gog_100", c9Gog)] =
      [("steam_100", c9Steam), ("gog_100", c9Gog)] ∧
    (merge_duplicate_titles [("steam_100", c9Steam), ("gog_100", c9Gog)]).length
      = 2 ∧
    merge_duplicate_titles
        [("steam_100", c9Steam), ("gog_100", c9Gog), ("origin_1", c9Tail)] =
      [("steam_100", { c9Steam with platforms := ["gog", "steam"] }),
        ("origin_1", c9Tail)] := by
  refine ⟨by decide, by decide, by decide⟩

/-! ## Serialization of the store (save_data_store / load_data_store) -/

/-- The decimal digit character for `d < 10`. -/
def decDigitChar (d : Nat) : Char :=
  Char.ofNat (48 + d)

/-- Numeric value of a decimal digit character. -/
def decDigitVal (c : Char) : Nat :=
  c.toNat - 48

/-- Is `c` one of the characters `0` .. `9`. -/
def isDecDigit (c : Char) : Bool :=
  48 ≤ c.toNat && c.toNat ≤ 57

/-- Python `str(n)` for a natural number: its decimal digit string. -/
def natToStr (n : Nat) : String :=
  if n = 0 then "0" else ⟨((Nat.digits 10 n).map decDigitChar).reverse⟩

/-- Python `int(s)` on a digit string, at the character-list level. -/
def parseNatChars (cs : List Char) : Option Nat :=
  if cs ≠ [] ∧ cs.all isDecDigit then
    some (cs.foldl (fun a c => 10 * a + decDigitVal c) 0)
  else none

/-- Python `str(k)` for an integer. -/
def intToStr (i : Int) : String :=
  if i < 0 then "-" ++ natToStr i.natAbs else natToStr i.toNat

/-- Python `int(s)` for a decimal integer string. -/
def parseInt (s : String) : Option Int :=
  match s.data with
  | [] => none
  | c :: rest =>
    if c = '-' then (parseNatChars rest).map (fun n => -(n : Int))
    else (parseNatChars (c :: rest)).map (fun n => (n : Int))

theorem decDigitVal_decDigitChar {d : Nat} (h : d < 10) :
    decDigitVal (decDigitChar d) = d := by
  interval_cases d <;> decide

theorem isDecDigit_decDigitChar {d : Nat} (h : d < 10) :
    isDecDigit (decDigitChar d) = true := by
  interval_cases d <;> decide

theorem decDigitChar_ne_dash {d : Nat} (h : d < 10) : decDigitChar d ≠ '-' := by
  interval_cases d <;> decide

theorem foldl_decDigits (ds : List Nat) (hds : ∀ d ∈ ds, d < 10) :
    ((ds.map decDigitChar).reverse).foldl (fun a c => 10 * a + decDigitVal c) 0 =
      Nat.ofDigits 10 ds := by
  rw [List.foldl_reverse]
  induction ds with
  | nil => simp [Nat.ofDigits]
  | cons d rest ih =>
    simp only [List.map_cons, List.foldr_cons, Nat.ofDigits_cons]
    rw [ih (fun x hx => hds x (List.mem_cons_of_mem _ hx)),
      decDigitVal_decDigitChar (hds d (by simp))]
    ring

theorem parseNatChars_natToStr (n : Nat) :
    parseNatChars (natToStr n).data = some n := by
  by_cases h0 : n = 0
  · subst h0
    decide
  · have hdata : (natToStr n).data = ((Nat.digits 10 n).map decDigitChar).reverse := by
      simp [natToStr, h0]
    rw [hdata]
    have hne : Nat.digits 10 n ≠ [] := Nat.digits_ne_nil_iff_ne_zero.mpr h0
    have hcond : ((Nat.digits 10 n).map decDigitChar).reverse ≠ [] ∧
        (((Nat.digits 10 n).map decDigitChar).reverse).all isDecDigit := by
      constructor
      · simp [hne]
      · rw [List.all_eq_true]
        intro c hc
        rw [List.mem_reverse, List.mem_map] at hc
        obtain ⟨d, hd, rfl⟩ := hc
        exact isDecDigit_decDigitChar (Nat.digits_lt_base (by norm_num) hd)
    rw [parseNatChars, if_pos hcond,
      foldl_decDigits _ (fun d hd => Nat.digits_lt_base (by norm_num) hd),
      Nat.ofDigits_digits]

theorem natToStr_head_ne_dash (n : Nat) {c : Char} {rest : List Char}
    (h : (natToStr n).data = c :: rest) : c ≠ '-' := by
  by_cases h0 : n = 0
  · subst h0
    have hd0 : (natToStr 0).data = ['0'] := by decide
    rw [hd0] at h
    injection h with hc hrest
    subst hc
    decide
  · have hdata : (natToStr n).data = ((Nat.digits 10 n).map decDigitChar).reverse := by
      simp [natToStr, h0]
    have hc : c ∈ (natToStr n).data := by
      rw [h]
      simp
    rw [hdata, List.mem_reverse, List.mem_map] at hc
    obtain ⟨d, hd, rfl⟩ := hc
    exact decDigitChar_ne_dash (Nat.digits_lt_base (by norm_num) hd)

/-- `int(str(k)) = k`: the store's user-id keys survive serialization. -/
theorem parseInt_intToStr (i : Int) : parseInt (intToStr i) = some i := by
  by_cases hneg : i < 0
  · have hstr : intToStr i = "-" ++ natToStr i.natAbs := by
      simp [intToStr, hneg]
    have hdata : ("-" ++ natToStr i.natAbs).data = '-' :: (natToStr i.natAbs).data := by
      rw [String.data_append]
      rfl
    rw [hstr]
    simp only [parseInt, hdata, if_pos, parseNatChars_natToStr, Option.map_some]
    have habs : ((i.natAbs : Int)) = -i :=
      Int.ofNat_natAbs_of_nonpos (le_of_lt hneg)
    simp [habs]
  · have hstr : intToStr i = natToStr i.toNat := by
      simp [intToStr, hneg]
    have h1 := parseNatChars_natToStr i.toNat
    rcases hd : (natToStr i.toNat).data with _ | ⟨c, rest⟩
    · rw [hd, parseNatChars] at h1
      simp at h1
    · rw [hd] at h1
      rw [hstr]
      simp only [parseInt, hd, if_neg (natToStr_head_ne_dash i.toNat hd), h1,
        Option.map_some]
      simp [Int.toNat_of_nonneg (not_lt.mp hneg)]

/-- The JSON values `json.dump` writes and `json.load` returns. -/
inductive Json where
  | null
  | bool (b : Bool)
  | int (i : Int)
  | str (s : String)
  | arr (items : List Json)
  | obj (fields : List (String × Json))

/-- Read a string value. -/
def asStr : Json → Option String
  | .str s => some s
  | _ => none

/-- Read an integer value. -/
def asInt : Json → Option Int
  | .int i => some i
  | _ => none

/-- Read a boolean value. -/
def asBool : Json → Option Bool
  | .bool b => some b
  | _ => none

/-- Read an optional integer (`None` serializes as `null`). -/
def asOptInt : Json → Option (Option Int)
  | .null => some none
  | .int i => some (some i)
  | _ => none

/-- Read an optional string. -/
def asOptStr : Json → Option (Option String)
  | .null => some none
  | .str s => some (some s)
  | _ => none

/-- Decode every element of a JSON array. -/
def decodeList {β : Type} (f : Json → Option β) : List Json → Option (List β)
  | [] => some []
  | j :: rest =>
    match f j, decodeList f rest with
    | some v, some vs => some (v :: vs)
    | _, _ => none

/-- Read a list of strings. -/
def asStrList : Json → Option (List String)
  | .arr items => decodeList asStr items
  | _ => none

/-- Read a list of integers. -/
def asIntList : Json → Option (List Int)
  | .arr items => decodeList asInt items
  | _ => none

/-- Encode an optional value, `None` as `null`. -/
def optJson {β : Type} (f : β → Json) : Option β → Json
  | none => .null
  | some v => f v

/-- `asdict` of a `GameData` record (save_data_store line 138). -/
def encodeGameData (g : GameData) : Json :=
  .obj [("release_key", .str g.release_key), ("title", .str g.title),
    ("slug", .str g.slug),
    ("platforms", .arr (g.platforms.map .str)),
    ("owners", .arr (g.owners.map .int)),
    ("installed", .arr (g.installed.map .int)),
    ("igdb_key", .str g.igdb_key),
    ("multiplayer", .bool g.multiplayer),
    ("max_players", optJson .int g.max_players),
    ("comment", optJson .str g.comment),
    ("url", optJson .str g.url)]

/-- `asdict` of a `UserData` record (save_data_store line 136). -/
def encodeUserData (u : UserData) : Json :=
  .obj [("user_id", .int u.user_id), ("username", .str u.username),
    ("db_filename", .str u.db_filename), ("db_mtime", .str u.db_mtime),
    ("total_games", .int u.total_games),
    ("installed_games", .int u.installed_games)]

/-- `GameData(**game_data)` (load_data_store lines 99-102): rebuild the record
from the parsed field mapping by keyword. -/
def decodeGameData : Json → Option GameData
  | .obj fields => do
    let release_key ← (lookupKey "release_key" fields).bind asStr
    let title ← (lookupKey "title" fields).bind asStr
    let slug ← (lookupKey "slug" fields).bind asStr
    let platforms ← (lookupKey "platforms" fields).bind asStrList
    let owners ← (lookupKey "owners" fields).bind asIntList
    let installed ← (lookupKey "installed" fields).bind asIntList
    let igdb_key ← (lookupKey "igdb_key" fields).bind asStr
    let multiplayer ← (lookupKey "multiplayer" fields).bind asBool
    let max_players ← (lookupKey "max_players" fields).bind asOptInt
    let comment ← (lookupKey "comment" fields).bind asOptStr
    let url ← (lookupKey "url" fields).bind asOptStr
    let r : GameData :=
      { release_key := release_key, title := title, slug := slug,
        platforms := platforms, owners := owners, installed := installed,
        igdb_key := igdb_key, multiplayer := multiplayer,
        max_players := max_players, comment := comment, url := url }
    pure r
  | _ => none

/-- `UserData(**user_data)` (load_data_store lines 94-97). -/
def decodeUserData : Json → Option UserData
  | .obj fields => do
    let user_id ← (lookupKey "user_id" fields).bind asInt
    let username ← (lookupKey "username" fields).bind asStr
    let db_filename ← (lookupKey "db_filename" fields).bind asStr
    let db_mtime ← (lookupKey "db_mtime" fields).bind asStr
    let total_games ← (lookupKey "total_games" fields).bind asInt
    let installed_games ← (lookupKey "installed_games" fields).bind asInt
    let r : UserData :=
      { user_id := user_id, username := username,
        db_filename := db_filename, db_mtime := db_mtime,
        total_games := total_games, installed_games := installed_games }
    pure r
  | _ => none

theorem decodeList_asStr (xs : List String) :
    decodeList asStr (xs.map .str) = some xs := by
  induction xs with
  | nil => rfl
  | cons x rest ih => simp [decodeList, asStr, ih]

theorem decodeList_asInt (xs : List Int) :
    decodeList asInt (xs.map .int) = some xs := by
  induction xs with
  | nil => rfl
  | cons x rest ih => simp [decodeList, asInt, ih]

theorem asOptInt_optJson (o : Option Int) : asOptInt (optJson .int o) = some o := by
  rcases o with _ | v <;> rfl

theorem asOptStr_optJson (o : Option String) :
    asOptStr (optJson .str o) = some o := by
  rcases o with _ | v <;> rfl

theorem decodeGameData_encodeGameData (g : GameData) :
    decodeGameData (encodeGameData g) = some g := by
  simp [decodeGameData, encodeGameData, lookupKey, asStr, asBool, asStrList,
    asIntList, decodeList_asStr, decodeList_asInt, asOptInt_optJson,
    asOptStr_optJson, Option.bind]

theorem decodeUserData_encodeUserData (u : UserData) :
    decodeUserData (encodeUserData u) = some u := by
  simp [decodeUserData, encodeUserData, lookupKey, asStr, asInt, Option.bind]

/-- The `data_dict` built by `save_data_store` (lines 134-141) after stamping
`last_updated` with the current time `now`: users keyed by `str(k)`, games by
release key. -/
def save_doc (store : DataStore) (now : String) : Json :=
  .obj [("users", .obj (store.users.map
      (fun p => (intToStr p.1, encodeUserData p.2)))),
    ("games", .obj (store.games.map (fun p => (p.1, encodeGameData p.2)))),
    ("last_updated", .str now),
    ("version", .str store.version)]

/-- The users comprehension of `load_data_store` (lines 94-97):
`int(user_id)` keys with decoded records; any failure aborts the load. -/
def decodeUsersEntries : List (String × Json) → Option (List (Int × UserData))
  | [] => some []
  | (ks, jv) :: rest =>
    match parseInt ks, decodeUserData jv, decodeUsersEntries rest with
    | some i, some u, some tail => some ((i, u) :: tail)
    | _, _, _ => none

/-- The games comprehension of `load_data_store` (lines 99-102). -/
def decodeGamesEntries : List (String × Json) → Option (List (String × GameData))
  | [] => some []
  | (ks, jv) :: rest =>
    match decodeGameData jv, decodeGamesEntries rest with
    | some g, some tail => some ((ks, g) :: tail)
    | _, _ => none

/-- `DataStoreHelper.load_data_store` (lines 76-113) applied to a parsed
document: rebuild users and games, read `last_updated`, default the version to
`"1.0"`; any error yields `none`. -/
def load_doc (j : Json) : Option DataStore :=
  match j with
  | .obj fields => do
    let usersFields ←
      match lookupKey "users" fields with
      | some (.obj fs) => some fs
      | _ => none
    let users ← decodeUsersEntries usersFields
    let gamesFields ←
      match lookupKey "games" fields with
      | some (.obj fs) => some fs
      | _ => none
    let games ← decodeGamesEntries gamesFields
    let last_updated ← (lookupKey "last_updated" fields).bind asStr
    let version := ((lookupKey "version" fields).bind asStr).getD "1.0"
    let r : DataStore :=
      { users := users, games := games, last_updated := last_updated,
        version := version }
    pure r
  | _ => none

theorem decodeUsersEntries_encode (users : List (Int × UserData)) :
    decodeUsersEntries (users.map (fun p => (intToStr p.1, encodeUserData p.2))) =
      some users := by
  induction users with
  | nil => rfl
  | cons p rest ih =>
    simp [decodeUsersEntries, parseInt_intToStr, decodeUserData_encodeUserData, ih]

theorem decodeGamesEntries_encode (games : List (String × GameData)) :
    decodeGamesEntries (games.map (fun p => (p.1, encodeGameData p.2))) =
      some games := by
  induction games with
  | nil => rfl
  | cons p rest ih =>
    simp [decodeGamesEntries, decodeGameData_encodeGameData, ih]

/-! ## Claim C6 -/

/-- C6: loading the document produced by a successful save returns a store
whose users map (integer keys included) and games map are identical to the
saved store's; only `last_updated` (stamped at save time) differs. -/
theorem c6_save_load_round_trip (store : DataStore) (now : String) :
    ∃ loaded : DataStore,
      load_doc (save_doc store now) = some loaded ∧
      loaded.users = store.users ∧ loaded.games = store.games ∧
      loaded.last_updated = now ∧ loaded.version = store.version := by
  refine ⟨{ users := store.users, games := store.games,
            last_updated := now, version := store.version },
    ?_, rfl, rfl, rfl, rfl⟩
  simp [load_doc, save_doc, lookupKey, decodeUsersEntries_encode,
    decodeGamesEntries_encode, asStr, Option.bind]
